import Mathlib

/-!
Shallow embedding of the nbodykit power-spectrum result container and the
Fourier-space transfer filters.

Conventions of the embedding:
* floating point values are modelled by `ℚ`; a non-finite float (NaN/Inf)
  is modelled by `none` in an `Option ℚ` cell, so a stored data grid is a
  function `ℕ → ℕ → Option ℚ`;
* a raised Python exception is modelled by the `Except` monad;
* `numpy` reductions (`digitize`, `bincount`, masked averages) are spelled
  out as explicit finite sums.
-/

namespace Nbodykit

/-- `np.digitize(x, edges)` for a strictly increasing `edges` list:
the number of edges that are `≤ x`, so `x < edges[0] ↦ 0`,
`edges[i-1] ≤ x < edges[i] ↦ i`, and `x ≥ edges.last ↦ edges.length`. -/
def digitize (edges : List ℚ) (x : ℚ) : ℕ :=
  edges.countP (fun e => decide (e ≤ x))

/-- Bin centers `0.5*(edges[1:] + edges[:-1])` derived from an edge list. -/
def binCenters (edges : List ℚ) : List ℚ :=
  (List.range (edges.length - 1)).map
    (fun i => (edges.getD i 0 + edges.getD (i + 1) 0) / 2)

/-- `np.linspace a b (n+1)`: the `n+1` evenly spaced points from `a` to `b`,
bounding `n` equal-width bins. -/
def linspace (a b : ℚ) (n : ℕ) : List ℚ :=
  (List.range (n + 1)).map (fun k => a + (b - a) * k / n)

/-- A data column: a 2D grid of float cells; `none` models a non-finite value. -/
abbrev Grid := ℕ → ℕ → Option ℚ

/-- Does cell `(i, j)` of the original grid contribute to the (raw, pre-strip)
output bin `(a, b)`?  It does when it is unmasked and the bin centers of its
row and column digitize to `a` and `b` under the new edge lists. -/
def cellContrib (ne0 ne1 c0 c1 : List ℚ) (mask : ℕ → ℕ → Bool)
    (a b i j : ℕ) : Bool :=
  !mask i j && (digitize ne0 (c0.getD i 0) == a) && (digitize ne1 (c1.getD j 0) == b)

/-- One `np.bincount(multi_index, weights=f)` entry: the sum of `f` over all
original cells contributing to raw output bin `(a, b)`. -/
def binSum (ne0 ne1 c0 c1 : List ℚ) (mask : ℕ → ℕ → Bool)
    (f : ℕ → ℕ → ℚ) (a b : ℕ) : ℚ :=
  ∑ i in Finset.range c0.length, ∑ j in Finset.range c1.length,
    if cellContrib ne0 ne1 c0 c1 mask a b i j then f i j else 0

/-- The body of module-level `rebin` for one named column: weighted sums and
counts per new bin, the quotient `valsum / N`, and the `[1:-1, 1:-1]` strip
(output cell `(a, b)` is raw bin `(a+1, b+1)`).  A zero weight-count `N`
makes the float quotient non-finite (`0/0 → NaN`, `x/0 → ±Inf`), modelled
as `none`. -/
def rebinColumn (ne0 ne1 c0 c1 : List ℚ) (mask : ℕ → ℕ → Bool)
    (w : ℕ → ℕ → ℚ) (v : Grid) : Grid :=
  fun a b =>
    let N := binSum ne0 ne1 c0 c1 mask w (a + 1) (b + 1)
    let valsum := binSum ne0 ne1 c0 c1 mask
      (fun i j => (v i j).getD 0 * w i j) (a + 1) (b + 1)
    if N = 0 then none else some (valsum / N)

/-- The `PkmuResult` container: edge lists, the stored columns (name, grid),
the nearest-bin-matching flag and the scalar metadata.  The validity mask is
derived (a cell is masked iff some column is non-finite there), exactly as
the constructor computes it. -/
structure PkmuResult where
  kedges : List ℚ
  muedges : List ℚ
  data : List (String × Grid)
  force_index_match : Bool
  meta : List (String × ℚ)

namespace PkmuResult

/-- Number of k bins. -/
def Nk (p : PkmuResult) : ℕ := p.kedges.length - 1

/-- Number of mu bins. -/
def Nmu (p : PkmuResult) : ℕ := p.muedges.length - 1

/-- Column names, `self.columns`. -/
def columns (p : PkmuResult) : List String := p.data.map Prod.fst

/-- The combined construction mask: a cell is masked iff any column holds a
non-finite value there. -/
def mask (p : PkmuResult) (i j : ℕ) : Bool :=
  p.data.any (fun c => (c.2 i j).isNone)

/-- Raw stored values of a named column. -/
def col (p : PkmuResult) (name : String) : Grid :=
  (p.data.lookup name).getD (fun _ _ => none)

/-- `self.k_center`. -/
def k_center (p : PkmuResult) : List ℚ := binCenters p.kedges

/-- `self.mu_center`. -/
def mu_center (p : PkmuResult) : List ℚ := binCenters p.muedges

end PkmuResult

/-- The `bins` argument of `_reindex`: an integer bin count or an explicit
edge sequence. -/
inductive Bins where
  | count : ℕ → Bins
  | edgeList : List ℚ → Bins

/-- The `weights` argument of `_reindex`: `None`, a column name, or an
explicit array. -/
inductive RWeights where
  | default : RWeights
  | byColumn : String → RWeights
  | byArray : (ℕ → ℕ → ℚ) → RWeights

/-- The bin-validation step of `_reindex`: an integer target must be
`< N_old` and is expanded by `np.linspace` over the axis extent; an explicit
edge sequence must have length `< N_old` and is used as given. -/
def computeBins (eAxis : List ℚ) (nOld : ℕ) : Bins → Except String (List ℚ)
  | Bins.count n =>
      if n ≥ nOld then Except.error "Can only reindex into fewer bins"
      else Except.ok (linspace (eAxis.headD 0) (eAxis.getLastD 0) n)
  | Bins.edgeList es =>
      if es.length ≥ nOld then Except.error "Can only reindex into fewer bins"
      else Except.ok es

/-- The weight-resolution step of `_reindex`: `None` becomes a uniform array
of ones, a string must name an existing column (whose raw `.data` is used),
an array is used as given. -/
def PkmuResult.getWeights (p : PkmuResult) : RWeights → Except String (ℕ → ℕ → ℚ)
  | RWeights.default => Except.ok (fun _ _ => 1)
  | RWeights.byColumn name =>
      if name ∈ p.columns then
        Except.ok (fun i j => (p.col name i j).getD 0)
      else Except.error "Cannot weight by this name; no such column"
  | RWeights.byArray w => Except.ok w

/-- `PkmuResult._reindex` for axis 0 (k) or axis 1 (mu): validate the bins,
resolve the weights, rebin every column against the updated edge pair, and
construct a fresh result with the same `force_index_match` and no metadata. -/
def PkmuResult.reindexAxis (p : PkmuResult) (axis : ℕ) (bins : Bins)
    (w : RWeights) : Except String PkmuResult := do
  let nOld := if axis = 0 then p.Nk else p.Nmu
  let eAxis := if axis = 0 then p.kedges else p.muedges
  let newE ← computeBins eAxis nOld bins
  let wts ← p.getWeights w
  let ne0 := if axis = 0 then newE else p.kedges
  let ne1 := if axis = 0 then p.muedges else newE
  Except.ok
    ⟨ne0, ne1,
      p.data.map
        (fun c => (c.1, rebinColumn ne0 ne1 p.k_center p.mu_center p.mask wts c.2)),
      p.force_index_match, []⟩

/-- `PkmuResult.reindex_k`. -/
def PkmuResult.reindex_k (p : PkmuResult) (bins : Bins)
    (w : RWeights) : Except String PkmuResult :=
  p.reindexAxis 0 bins w

/-- `PkmuResult.reindex_mu`. -/
def PkmuResult.reindex_mu (p : PkmuResult) (bins : Bins)
    (w : RWeights) : Except String PkmuResult :=
  p.reindexAxis 1 bins w

/-- `Except.isOk` as a plain Boolean discriminator. -/
def isOkE {ε α : Type _} : Except ε α → Bool
  | Except.ok _ => true
  | Except.error _ => false

/-- Python exception classes raised by `PkmuResult` lookups. -/
inductive PkErr where
  | keyError : String → PkErr
  | indexError : String → PkErr
  | valueError : String → PkErr
deriving DecidableEq

/-- `str(e)` of a modelled exception. -/
def PkErr.msg : PkErr → String
  | PkErr.keyError s => s
  | PkErr.indexError s => s
  | PkErr.valueError s => s

/-- `np.argmin(np.abs(index - val))`: the first position minimising the
absolute difference to `val` (0 on an empty list). -/
def argminAbs (l : List ℚ) (v : ℚ) : ℕ :=
  (List.range l.length).foldl
    (fun best i => if |l.getD i 0 - v| < |l.getD best 0 - v| then i else best) 0

/-- `PkmuResult._get_index`: resolve a bin-center value on axis 0 (k) or
axis 1 (mu) to an integer bin position.  With `force_index_match` the nearest
center is taken; otherwise `list(index).index(val)` demands an exact match
and a miss raises an `IndexError`. -/
def PkmuResult.get_index (p : PkmuResult) (axis : ℕ) (v : ℚ) : Except PkErr ℕ :=
  let idx := if axis = 1 then p.mu_center else p.k_center
  if p.force_index_match then Except.ok (argminAbs idx v)
  else
    match idx.findIdx? (fun c => decide (c = v)) with
    | some i => Except.ok i
    | none =>
        Except.error
          (PkErr.indexError "error converting index; try setting force_index_match=True")

/-- A slice bound inside a `__getitem__` subscript: a raw integer (passed
through untouched) or a float bin-center value (to be resolved). -/
inductive Bound where
  | bInt : ℕ → Bound
  | bVal : ℚ → Bound

/-- One element of a `__getitem__` tuple subscript. -/
inductive SubKey where
  | int : ℕ → SubKey
  | val : ℚ → SubKey
  | slc : Option Bound → Option Bound → SubKey

/-- A `__getitem__` subscript: a raw integer, or a tuple of subkeys. -/
inductive Key where
  | int : ℕ → Key
  | tup : List SubKey → Key

/-- A resolved tuple element: what is finally passed to the numpy array. -/
inductive ResolvedSub where
  | rInt : ℕ → ResolvedSub
  | rSlc : Option ℕ → Option ℕ → ResolvedSub
deriving DecidableEq

/-- A fully resolved subscript as handed to `self.data[...]`. -/
inductive ResolvedKey where
  | rawInt : ℕ → ResolvedKey
  | pair : ResolvedSub → ResolvedSub → ResolvedKey
deriving DecidableEq

/-- Resolve one slice bound: `None` and integers pass through, a float value
goes through `_get_index`. -/
def PkmuResult.resolveBound (p : PkmuResult) (axis : ℕ) :
    Option Bound → Except PkErr (Option ℕ)
  | none => Except.ok none
  | some (Bound.bInt i) => Except.ok (some i)
  | some (Bound.bVal v) => do
      let i ← p.get_index axis v
      Except.ok (some i)

/-- Resolve one tuple element at its axis position. -/
def PkmuResult.resolveSub (p : PkmuResult) (axis : ℕ) :
    SubKey → Except PkErr ResolvedSub
  | SubKey.int i => Except.ok (ResolvedSub.rInt i)
  | SubKey.val v => do
      let i ← p.get_index axis v
      Except.ok (ResolvedSub.rInt i)
  | SubKey.slc s e => do
      let s2 ← p.resolveBound axis s
      let e2 ← p.resolveBound axis e
      Except.ok (ResolvedSub.rSlc s2 e2)

/-- The body of `__getitem__` before the blanket `except`: tuples must have
exactly two elements (else `IndexError`), and each element is resolved at its
axis; a non-tuple integer key passes straight to the data array. -/
def PkmuResult.getitemInner (p : PkmuResult) : Key → Except PkErr ResolvedKey
  | Key.int i => Except.ok (ResolvedKey.rawInt i)
  | Key.tup ks =>
      match ks with
      | [a, b] => do
          let ra ← p.resolveSub 0 a
          let rb ← p.resolveSub 1 b
          Except.ok (ResolvedKey.pair ra rb)
      | _ => Except.error (PkErr.indexError "too many indices for array")

/-- `PkmuResult.__getitem__`: the whole body runs inside `try`, and any
exception is re-raised as a `KeyError` wrapping the original message. -/
def PkmuResult.getitem (p : PkmuResult) (k : Key) : Except PkErr ResolvedKey :=
  match p.getitemInner k with
  | Except.ok r => Except.ok r
  | Except.error e =>
      Except.error (PkErr.keyError ("Key not understood in __getitem__: " ++ e.msg))

/-- A `mu` or `k` argument to `Pk` / `Pmu`: an integer bin or a float value. -/
inductive IntOrVal where
  | int : ℕ → IntOrVal
  | val : ℚ → IntOrVal

/-- `self.data[:, j]`: the P(k) slice at mu bin `j`, as a function of the k
bin and the column name. -/
def PkmuResult.muSlice (p : PkmuResult) (j : ℕ) : ℕ → String → Option ℚ :=
  fun i name => p.col name i j

/-- `self.data[i, :]`: the P(mu) slice at k bin `i`. -/
def PkmuResult.kSlice (p : PkmuResult) (i : ℕ) : ℕ → String → Option ℚ :=
  fun j name => p.col name i j

/-- `PkmuResult.Pk`: a float `mu` is resolved through `_get_index` (axis 1);
errors propagate unwrapped. -/
def PkmuResult.Pk (p : PkmuResult) : IntOrVal → Except PkErr (ℕ → String → Option ℚ)
  | IntOrVal.int j => Except.ok (p.muSlice j)
  | IntOrVal.val v => do
      let j ← p.get_index 1 v
      Except.ok (p.muSlice j)

/-- `PkmuResult.Pmu`: a float `k` is resolved through `_get_index` (axis 0). -/
def PkmuResult.Pmu (p : PkmuResult) : IntOrVal → Except PkErr (ℕ → String → Option ℚ)
  | IntOrVal.int i => Except.ok (p.kSlice i)
  | IntOrVal.val v => do
      let i ← p.get_index 0 v
      Except.ok (p.kSlice i)

/-- The serialized `self.__dict__` written by `to_pickle`: the masked data
table (raw values), the column names, both edge lists, the derived center
index, the matching flag, the metadata key list and the metadata fields. -/
structure PickleRecord where
  pdata : List (String × Grid)
  pcolumns : List String
  pkedges : List ℚ
  pmuedges : List ℚ
  pindexK : List ℚ
  pindexMu : List ℚ
  pforce : Bool
  pmetaKeys : List String
  pmetaFields : List (String × ℚ)

/-- `PkmuResult.to_pickle`: dump the instance dictionary. -/
def PkmuResult.to_pickle (p : PkmuResult) : PickleRecord :=
  ⟨p.data, p.columns, p.kedges, p.muedges, p.k_center, p.mu_center,
    p.force_index_match, p.meta.map Prod.fst, p.meta⟩

/-- `PkmuResult.from_pickle`: rebuild the data dict from the raw `.data` of
each listed column and re-run the constructor with the stored edges, flag and
metadata fields. -/
def PkmuResult.from_pickle (r : PickleRecord) : PkmuResult :=
  ⟨r.pkedges, r.pmuedges,
    r.pcolumns.map (fun n => (n, (r.pdata.lookup n).getD (fun _ _ => none))),
    r.pforce,
    r.pmetaKeys.map (fun k => (k, (r.pmetaFields.lookup k).getD 0))⟩

/-- `(wi == 0).nonzero()[0][0]`: the first position of a zero frequency. -/
def firstZero (w : List ℚ) : Option ℕ := w.findIdx? (fun x => decide (x = 0))

/-- The multi-index of the locally owned zero mode, when every per-axis
frequency array has a zero entry; `none` when some axis has none (the loop
body returns early in that case). -/
def dcIndex : List (List ℚ) → Option (List ℕ)
  | [] => some []
  | w :: ws =>
      match firstZero w, dcIndex ws with
      | some i, some is => some (i :: is)
      | _, _ => none

/-- `RemoveDC.__call__`: zero the single entry at the zero-mode multi-index
when it is locally present, otherwise leave the field untouched.  A complex
field value is a pair of rationals. -/
def removeDC (ws : List (List ℚ)) (field : List ℕ → ℚ × ℚ) : List ℕ → ℚ × ℚ :=
  match dcIndex ws with
  | none => field
  | some ind => fun idx => if idx = ind then (0, 0) else field idx

/-- The per-axis cloud-in-cell correction factor
`(1 - 2/3 * sin(w/2)^2) ** 0.5`.  Floating-point trigonometry is idealised
over the reals. -/
noncomputable def cicFactor (w : ℝ) : ℝ :=
  Real.sqrt (1 - 2 / 3 * Real.sin (w / 2) ^ 2)

/-- One loop iteration of `AnisotropicCIC.__call__` for the axis-0 frequency
array: `complex[:] /= tmp` with `tmp` broadcast along axis 0. -/
noncomputable def divideAxis0 (c : ℕ → ℕ → ℂ) (w : ℕ → ℝ) : ℕ → ℕ → ℂ :=
  fun i j => c i j / ((cicFactor (w i) : ℝ) : ℂ)

/-- One loop iteration of `AnisotropicCIC.__call__` for the axis-1 frequency
array, broadcast along axis 1. -/
noncomputable def divideAxis1 (c : ℕ → ℕ → ℂ) (w : ℕ → ℝ) : ℕ → ℕ → ℂ :=
  fun i j => c i j / ((cicFactor (w j) : ℝ) : ℂ)

/-- `AnisotropicCIC.__call__` on a rank-2 field `pm.w = [w0, w1]`: the loop
divides by the broadcast factor of each axis in turn. -/
noncomputable def anisotropicCIC (w0 w1 : ℕ → ℝ) (c : ℕ → ℕ → ℂ) : ℕ → ℕ → ℂ :=
  divideAxis1 (divideAxis0 c w0) w1

/-- An input source of `power.py`: an identity (two sources compare unequal
iff their identities differ) and the box size it reports. -/
structure PowerInput where
  ident : ℕ
  BoxSize : List ℚ
deriving DecidableEq

/-- An observable unit of work done by `power.py main()`. -/
inductive MainStep where
  | paintStep : ℕ → MainStep
  | r2cStep : ℕ → MainStep
  | transferStep : ℕ → MainStep
  | measureStep : MainStep
  | writeStep : MainStep
deriving DecidableEq

/-- The control flow of `power.py main()` as the list of work steps performed
and the exception, if any, that terminated it: input 0 is painted,
transformed and filtered first; only then, for a genuine cross power, the box
sizes are compared and a mismatch raises `ValueError` before the second field
is touched; otherwise the run continues to measurement and output. -/
def mainRun (inputs : List PowerInput) : List MainStep × Option String :=
  let pre := [MainStep.paintStep 0, MainStep.r2cStep 0, MainStep.transferStep 0]
  match inputs with
  | i0 :: i1 :: _ =>
      if i0 ≠ i1 then
        if i0.BoxSize ≠ i1.BoxSize then
          (pre, some "mismatch in box sizes for cross power measurement")
        else
          (pre ++ [MainStep.paintStep 1, MainStep.r2cStep 1, MainStep.transferStep 1,
            MainStep.measureStep, MainStep.writeStep], none)
      else (pre ++ [MainStep.measureStep, MainStep.writeStep], none)
  | _ => (pre ++ [MainStep.measureStep, MainStep.writeStep], none)

/-! Concrete instances used by the example-level claims. -/

/-- A one-column grid whose cell value is its k-bin index. -/
def kIndexGrid : Grid := fun i _ => some (i : ℚ)

/-- The C5 example container: `kedges=[0,1,2,3,4]`, `muedges=[0,0.5,1]`,
one column holding the k-bin index everywhere. -/
def exampleKIndex : PkmuResult :=
  ⟨[0, 1, 2, 3, 4], [0, 1/2, 1], [( "P", kIndexGrid)], false, []⟩

/-- A column with three finite values `1, 2, 3` and one NaN cell (k bin 3). -/
def threeValidGrid : Grid :=
  fun i _ => if i = 3 then none else some ((i : ℚ) + 1)

/-- Container with a single mu bin, values `[1, 2, 3, NaN]` along k. -/
def exampleThreeValid : PkmuResult :=
  ⟨[0, 1, 2, 3, 4], [0, 1], [( "P", threeValidGrid)], false, []⟩

/-- A column that is NaN in every cell. -/
def allMaskedGrid : Grid := fun _ _ => none

/-- Container all of whose cells are masked at construction. -/
def exampleAllMasked : PkmuResult :=
  ⟨[0, 1, 2, 3, 4], [0, 1], [( "P", allMaskedGrid)], false, []⟩

/-- Mask-free column `[0, 1, 5]` along k, used against the rebin round-trip. -/
def unevenGrid : Grid := fun i _ => some (([0, 1, 5].getD i 0 : ℚ))

/-- Three k bins holding `0, 1, 5`: rebinning `3 → 2 → 1` averages the
intermediate bins `0` and `3` to `3/2`, while `3 → 1` averages to `2`. -/
def exampleUneven : PkmuResult :=
  ⟨[0, 1, 2, 3], [0, 1], [( "P", unevenGrid)], false, []⟩

/-- A mask-free column over four k bins with arbitrary values. -/
def quadGrid (a b c d : ℚ) : Grid := fun i _ => some ([a, b, c, d].getD i 0)

/-- Four k bins holding `a, b, c, d`, one mu bin. -/
def quadResult (a b c d : ℚ) : PkmuResult :=
  ⟨[0, 1, 2, 3, 4], [0, 1], [( "P", quadGrid a b c d)], false, []⟩

/-- Container with a metadata field, used against the pickle round-trip. -/
def exampleWithMeta : PkmuResult :=
  ⟨[0, 1, 2, 3, 4], [0, 1], [( "P", threeValidGrid)], true, [( "Lx", 1)]⟩

/-- The C5 container with `force_index_match` turned on. -/
def exampleForce : PkmuResult :=
  ⟨[0, 1, 2, 3, 4], [0, 1/2, 1], [( "P", kIndexGrid)], true, []⟩

/-- Two distinct cross-power inputs whose box sizes disagree. -/
def mismatchInputs : List PowerInput := [⟨0, [0]⟩, ⟨1, [1]⟩]

/-!  Helper lemmas shared by the claim theorems. -/

theorem binSum_congr {ne0 ne1 c0 c1 : List ℚ} {mask : ℕ → ℕ → Bool}
    {f g : ℕ → ℕ → ℚ} {a b : ℕ}
    (h : ∀ i j, mask i j = false → f i j = g i j) :
    binSum ne0 ne1 c0 c1 mask f a b = binSum ne0 ne1 c0 c1 mask g a b := by
  unfold binSum
  refine Finset.sum_congr rfl (fun i _ => Finset.sum_congr rfl (fun j _ => ?_))
  by_cases hc : cellContrib ne0 ne1 c0 c1 mask a b i j = true
  · have hm : mask i j = false := by
      unfold cellContrib at hc
      simp only [Bool.and_eq_true, Bool.not_eq_true'] at hc
      exact hc.1.1
    simp only [hc, if_true, h i j hm]
  · simp only [Bool.not_eq_true] at hc
    simp only [hc, Bool.false_eq_true, if_false]

theorem findIdx?_eq_some_of_get? {l : List ℚ} {v : ℚ}
    (hl : List.Pairwise (· ≠ ·) l) :
    ∀ {i : ℕ} (s : ℕ), l.get? i = some v →
      List.findIdx? (fun c => decide (c = v)) l s = some (s + i) := by
  induction l with
  | nil => intro i s h; simp at h
  | cons x xs ih =>
      intro i s h
      match i with
      | 0 =>
          simp only [List.get?] at h
          injection h with h
          simp [List.findIdx?_cons, h]
      | i + 1 =>
          simp only [List.get?] at h
          have hmem : v ∈ xs := List.get?_mem h
          have hx : x ≠ v := (List.pairwise_cons.mp hl).1 v hmem
          rw [List.findIdx?_cons, if_neg (by simp [hx])]
          rw [ih (List.pairwise_cons.mp hl).2 (s + 1) h]
          congr 1
          omega

theorem findIdx?_eq_none_of_not_mem {l : List ℚ} {v : ℚ} (h : v ∉ l) :
    ∀ s : ℕ, List.findIdx? (fun c => decide (c = v)) l s = none := by
  induction l with
  | nil => intro s; rfl
  | cons x xs ih =>
      intro s
      rw [List.findIdx?_cons, if_neg (by simp; rintro rfl; exact h (List.mem_cons_self x xs))]
      exact ih (fun hm => h (List.mem_cons_of_mem x hm)) (s + 1)

theorem foldl_argmin_le (l : List ℚ) (v : ℚ) :
    ∀ (xs : List ℕ) (b : ℕ),
      |l.getD (xs.foldl
          (fun best i => if |l.getD i 0 - v| < |l.getD best 0 - v| then i else best) b) 0 - v|
        ≤ |l.getD b 0 - v| ∧
      ∀ i ∈ xs,
        |l.getD (xs.foldl
            (fun best i => if |l.getD i 0 - v| < |l.getD best 0 - v| then i else best) b) 0 - v|
          ≤ |l.getD i 0 - v| := by
  intro xs
  induction xs with
  | nil => intro b; exact ⟨le_refl _, by simp⟩
  | cons x xs ih =>
      intro b
      simp only [List.foldl_cons]
      obtain ⟨h1, h2⟩ := ih (if |l.getD x 0 - v| < |l.getD b 0 - v| then x else b)
      constructor
      · refine le_trans h1 ?_
        by_cases hc : |l.getD x 0 - v| < |l.getD b 0 - v|
        · simp only [hc, if_true]; exact le_of_lt hc
        · simp only [hc, if_false]; exact le_refl _
      · intro i hi
        rcases List.mem_cons.mp hi with rfl | hi
        · refine le_trans h1 ?_
          by_cases hc : |l.getD i 0 - v| < |l.getD b 0 - v|
          · simp only [hc, if_true]; exact le_refl _
          · simp only [hc, if_false]; exact le_of_not_lt hc
        · exact h2 i hi

theorem argminAbs_nearest (l : List ℚ) (v : ℚ) :
    ∀ j < l.length, |l.getD (argminAbs l v) 0 - v| ≤ |l.getD j 0 - v| := by
  intro j hj
  exact (foldl_argmin_le l v (List.range l.length) 0).2 j (List.mem_range.mpr hj)

theorem binCenters_pairwise_lt {edges : List ℚ}
    (h : List.Pairwise (· < ·) edges) :
    List.Pairwise (· < ·) (binCenters edges) := by
  unfold binCenters
  rw [List.pairwise_map]
  have hr := List.pairwise_lt_range (edges.length - 1)
  refine hr.imp_of_mem ?_
  intro i j hi hj hij
  rw [List.mem_range] at hi hj
  have hget : ∀ {a b : ℕ}, a < b → b < edges.length →
      edges.getD a 0 < edges.getD b 0 := by
    intro a b hab hb
    have ha : a < edges.length := lt_trans hab hb
    rw [List.getD_eq_get? , List.getD_eq_get?, List.get?_eq_get ha, List.get?_eq_get hb]
    exact List.pairwise_iff_get.mp h ⟨a, ha⟩ ⟨b, hb⟩ hab
  have h1 : edges.getD i 0 < edges.getD j 0 := hget hij (by omega)
  have h2 : edges.getD (i + 1) 0 < edges.getD (j + 1) 0 := hget (by omega) (by omega)
  have := add_lt_add h1 h2
  linarith

theorem assoc_map_lookup {α : Type _} (d : α) :
    ∀ (L : List (String × α)), (L.map Prod.fst).Nodup →
      (L.map Prod.fst).map (fun n => (n, (L.lookup n).getD d)) = L := by
  intro L
  induction L with
  | nil => intro _; rfl
  | cons q L ih =>
      intro hnd
      obtain ⟨n, a⟩ := q
      rw [List.map_cons, List.nodup_cons] at hnd
      obtain ⟨hq, hL⟩ := hnd
      have htail : (L.map Prod.fst).map
            (fun m => (m, (List.lookup m ((n, a) :: L)).getD d))
          = (L.map Prod.fst).map (fun m => (m, (List.lookup m L).getD d)) := by
        refine List.map_congr_left ?_
        intro m hm
        have hmn : (m == n) = false := beq_eq_false_iff_ne.mpr (fun h => hq (h ▸ hm))
        simp [List.lookup_cons, hmn]
      simp only [List.map_cons, htail, ih hL]
      simp [List.lookup_cons]

/-! Claim theorems. -/

/-- C5: on the container with `kedges=[0,1,2,3,4]`, `muedges=[0,0.5,1]`,
uniform weights and a column equal to the k-bin index everywhere,
`reindex_k(2)` produces the two equal-width k bins `[0,2,4]` spanning the
original extent, and the rebinned column holds `0.5` and `2.5` in both mu
columns. -/
theorem claim_C5_reindex_k_two_bins :
    (exampleKIndex.reindex_k (Bins.count 2) RWeights.default).toOption.map
      (fun q => (q.kedges, q.col "P" 0 0, q.col "P" 0 1,
        q.col "P" 1 0, q.col "P" 1 1))
    = some ([0, 2, 4], some (1/2), some (1/2), some (5/2), some (5/2)) := by
  norm_num [exampleKIndex, kIndexGrid, PkmuResult.reindex_k, PkmuResult.reindexAxis,
    computeBins, linspace, PkmuResult.getWeights, PkmuResult.Nk, PkmuResult.Nmu,
    PkmuResult.k_center, PkmuResult.mu_center, binCenters,
    rebinColumn, binSum, cellContrib, digitize, PkmuResult.mask,
    List.range_succ, List.countP_cons, List.getD, List.lookup,
    Finset.sum_range_succ, bind, Except.bind, Except.toOption,
    -Finset.sum_boole, PkmuResult.col]

/-- C1: cells masked at construction contribute neither to the weighted
value sum nor to the weight sum of any rebinned cell (the output of
`rebinColumn` is unchanged under arbitrary modification of values and
weights at masked cells); concretely, a new bin combining three valid cells
`1, 2, 3` with unit weights and one masked cell averages to exactly `2`,
and a new bin drawing only from masked cells comes out non-finite (masked)
through `0/0`, with the rebin returning normally rather than raising. -/
theorem claim_C1_masked_cells_excluded :
    (∀ (ne0 ne1 c0 c1 : List ℚ) (mask : ℕ → ℕ → Bool) (w w' : ℕ → ℕ → ℚ)
        (v v' : Grid) (a b : ℕ),
        (∀ i j, mask i j = false → v i j = v' i j) →
        (∀ i j, mask i j = false → w i j = w' i j) →
        rebinColumn ne0 ne1 c0 c1 mask w v a b
          = rebinColumn ne0 ne1 c0 c1 mask w' v' a b) ∧
    (exampleThreeValid.reindex_k (Bins.edgeList [0, 4]) RWeights.default).toOption.map
      (fun q => q.col "P" 0 0) = some (some 2) ∧
    (exampleAllMasked.reindex_k (Bins.edgeList [0, 4]) RWeights.default).toOption.map
      (fun q => q.col "P" 0 0) = some none := by
  refine ⟨?_, ?_, ?_⟩
  · intro ne0 ne1 c0 c1 mask w w' v v' a b hv hw
    unfold rebinColumn
    have hN : binSum ne0 ne1 c0 c1 mask w (a + 1) (b + 1)
        = binSum ne0 ne1 c0 c1 mask w' (a + 1) (b + 1) := binSum_congr hw
    have hS : binSum ne0 ne1 c0 c1 mask (fun i j => (v i j).getD 0 * w i j) (a + 1) (b + 1)
        = binSum ne0 ne1 c0 c1 mask (fun i j => (v' i j).getD 0 * w' i j) (a + 1) (b + 1) :=
      binSum_congr (fun i j hm => by rw [hv i j hm, hw i j hm])
    rw [hN, hS]
  · norm_num [exampleThreeValid, threeValidGrid, PkmuResult.reindex_k,
      PkmuResult.reindexAxis, computeBins, linspace, PkmuResult.getWeights,
      PkmuResult.Nk, PkmuResult.Nmu, PkmuResult.k_center, PkmuResult.mu_center,
      binCenters, rebinColumn, binSum, cellContrib, digitize, PkmuResult.mask,
      List.range_succ, List.countP_cons, List.getD, List.lookup,
      Finset.sum_range_succ, bind, Except.bind, Except.toOption,
      -Finset.sum_boole, PkmuResult.col]
  · norm_num [exampleAllMasked, allMaskedGrid, PkmuResult.reindex_k,
      PkmuResult.reindexAxis, computeBins, linspace, PkmuResult.getWeights,
      PkmuResult.Nk, PkmuResult.Nmu, PkmuResult.k_center, PkmuResult.mu_center,
      binCenters, rebinColumn, binSum, cellContrib, digitize, PkmuResult.mask,
      List.range_succ, List.countP_cons, List.getD, List.lookup,
      Finset.sum_range_succ, bind, Except.bind, Except.toOption,
      -Finset.sum_boole, PkmuResult.col]

/-- Witness for C1: the invariance part applied at a concrete mask, grids
and weights that differ only on the masked row. -/
theorem claim_C1_masked_cells_excluded_witness :
    rebinColumn [0, 4] [0, 1] [1/2, 3/2] [1/2] (fun i _ => i == 1)
      (fun _ _ => 1) (fun _ _ => some 5) 0 0
    = rebinColumn [0, 4] [0, 1] [1/2, 3/2] [1/2] (fun i _ => i == 1)
      (fun i _ => if i = 1 then 7 else 1)
      (fun i _ => if i = 1 then some 99 else some 5) 0 0 :=
  claim_C1_masked_cells_excluded.1 [0, 4] [0, 1] [1/2, 3/2] [1/2]
    (fun i _ => i == 1) (fun _ _ => 1) (fun i _ => if i = 1 then 7 else 1)
    (fun _ _ => some 5) (fun i _ => if i = 1 then some 99 else some 5) 0 0
    (by intro i j h; simp only [beq_eq_false_iff_ne, ne_eq] at h; simp [h])
    (by intro i j h; simp only [beq_eq_false_iff_ne, ne_eq] at h; simp [h])

/-- C2 counterexample: on a 4-k-bin container, the explicit edge sequence
`[0, 1, 2, 4]` defines 3 bins — strictly fewer than 4 — yet `reindex_k`
rejects it, because the code compares the LENGTH of the edge sequence
(4 here) against the old bin count rather than the bin count it defines. -/
theorem claim_C2_counterexample :
    ([0, 1, 2, 4] : List ℚ).length - 1 < exampleThreeValid.Nk ∧
    isOkE (exampleThreeValid.reindex_k
      (Bins.edgeList [0, 1, 2, 4]) RWeights.default) = false := by
  constructor
  · simp [exampleThreeValid, PkmuResult.Nk]
  · rfl

/-- C2 amended: an integer target `n` is accepted iff `n` is strictly less
than the current bin count of the target axis; an explicit edge sequence is
accepted iff the NUMBER OF EDGES is strictly less than the current bin count
(so the finest accepted edge sequence defines `N_old - 2` bins, and edge
sequences defining `N_old - 1` strictly fewer bins are still rejected). -/
theorem claim_C2_amended_rejection_rule (p : PkmuResult) (n : ℕ) (es : List ℚ) :
    (isOkE (p.reindex_k (Bins.count n) RWeights.default) = true ↔ n < p.Nk) ∧
    (isOkE (p.reindex_k (Bins.edgeList es) RWeights.default) = true ↔ es.length < p.Nk) ∧
    (isOkE (p.reindex_mu (Bins.count n) RWeights.default) = true ↔ n < p.Nmu) ∧
    (isOkE (p.reindex_mu (Bins.edgeList es) RWeights.default) = true ↔ es.length < p.Nmu) := by
  refine ⟨?_, ?_, ?_, ?_⟩
  · by_cases h : n ≥ p.Nk <;>
      simp [PkmuResult.reindex_k, PkmuResult.reindexAxis, computeBins,
        PkmuResult.getWeights, isOkE, bind, Except.bind, h] <;> omega
  · by_cases h : es.length ≥ p.Nk <;>
      simp [PkmuResult.reindex_k, PkmuResult.reindexAxis, computeBins,
        PkmuResult.getWeights, isOkE, bind, Except.bind, h] <;> omega
  · by_cases h : n ≥ p.Nmu <;>
      simp [PkmuResult.reindex_mu, PkmuResult.reindexAxis, computeBins,
        PkmuResult.getWeights, isOkE, bind, Except.bind, h] <;> omega
  · by_cases h : es.length ≥ p.Nmu <;>
      simp [PkmuResult.reindex_mu, PkmuResult.reindexAxis, computeBins,
        PkmuResult.getWeights, isOkE, bind, Except.bind, h] <;> omega

/-- C4 counterexample: on the mask-free container with three k bins holding
`0, 1, 5`, rebinning k to 2 bins and then to 1 bin gives `3/2` (the second
rebin restarts from uniform weights, so the uneven intermediate bins count
equally), while the direct rebin to 1 bin gives the true mean `2`. -/
theorem claim_C4_counterexample :
    ((exampleUneven.reindex_k (Bins.count 2) RWeights.default).bind
        (fun q => q.reindex_k (Bins.count 1) RWeights.default)).toOption.map
      (fun q => q.col "P" 0 0) = some (some (3/2)) ∧
    (exampleUneven.reindex_k (Bins.count 1) RWeights.default).toOption.map
      (fun q => q.col "P" 0 0) = some (some 2) ∧
    (3/2 : ℚ) ≠ 2 := by
  refine ⟨?_, ?_, by norm_num⟩
  · norm_num [exampleUneven, unevenGrid, PkmuResult.reindex_k,
      PkmuResult.reindexAxis, computeBins, linspace, PkmuResult.getWeights,
      PkmuResult.Nk, PkmuResult.Nmu, PkmuResult.k_center, PkmuResult.mu_center,
      binCenters, rebinColumn, binSum, cellContrib, digitize, PkmuResult.mask,
      List.range_succ, List.countP_cons, List.getD, List.lookup,
      Finset.sum_range_succ, bind, Except.bind, Except.toOption,
      -Finset.sum_boole, PkmuResult.col]
  · norm_num [exampleUneven, unevenGrid, PkmuResult.reindex_k,
      PkmuResult.reindexAxis, computeBins, linspace, PkmuResult.getWeights,
      PkmuResult.Nk, PkmuResult.Nmu, PkmuResult.k_center, PkmuResult.mu_center,
      binCenters, rebinColumn, binSum, cellContrib, digitize, PkmuResult.mask,
      List.range_succ, List.countP_cons, List.getD, List.lookup,
      Finset.sum_range_succ, bind, Except.bind, Except.toOption,
      -Finset.sum_boole, PkmuResult.col]

/-- C4 amended: the two-step rebin agrees with the direct rebin when every
intermediate bin aggregates the same number of original cells: over four k
bins with arbitrary mask-free values `a, b, c, d`, rebinning `4 → 2 → 1`
and rebinning `4 → 1` both give the mean `(a+b+c+d)/4`.  (In general, as the
counterexample shows, the two-step result differs from the direct one.) -/
theorem claim_C4_amended_even_split (a b c d : ℚ) :
    (((quadResult a b c d).reindex_k (Bins.count 2) RWeights.default).bind
        (fun q => q.reindex_k (Bins.count 1) RWeights.default)).toOption.map
      (fun q => q.col "P" 0 0) = some (some ((a + b + c + d) / 4)) ∧
    ((quadResult a b c d).reindex_k (Bins.count 1) RWeights.default).toOption.map
      (fun q => q.col "P" 0 0) = some (some ((a + b + c + d) / 4)) := by
  constructor
  · norm_num [quadResult, quadGrid, PkmuResult.reindex_k,
      PkmuResult.reindexAxis, computeBins, linspace, PkmuResult.getWeights,
      PkmuResult.Nk, PkmuResult.Nmu, PkmuResult.k_center, PkmuResult.mu_center,
      binCenters, rebinColumn, binSum, cellContrib, digitize, PkmuResult.mask,
      List.range_succ, List.countP_cons, List.getD, List.lookup,
      Finset.sum_range_succ, bind, Except.bind, Except.toOption,
      -Finset.sum_boole, PkmuResult.col]
    ring
  · norm_num [quadResult, quadGrid, PkmuResult.reindex_k,
      PkmuResult.reindexAxis, computeBins, linspace, PkmuResult.getWeights,
      PkmuResult.Nk, PkmuResult.Nmu, PkmuResult.k_center, PkmuResult.mu_center,
      binCenters, rebinColumn, binSum, cellContrib, digitize, PkmuResult.mask,
      List.range_succ, List.countP_cons, List.getD, List.lookup,
      Finset.sum_range_succ, bind, Except.bind, Except.toOption,
      -Finset.sum_boole, PkmuResult.col]

theorem firstZero_isSome_iff {w : List ℚ} :
    (firstZero w).isSome = true ↔ (0 : ℚ) ∈ w := by
  unfold firstZero
  rw [List.findIdx?_isSome]
  simp only [List.any_eq_true, decide_eq_true_eq]
  constructor
  · rintro ⟨x, hx, rfl⟩; exact hx
  · intro h; exact ⟨0, h, rfl⟩

theorem dcIndex_isSome_iff :
    ∀ ws : List (List ℚ), (dcIndex ws).isSome = true ↔ ∀ w ∈ ws, (0 : ℚ) ∈ w := by
  intro ws
  induction ws with
  | nil => simp [dcIndex]
  | cons w ws ih =>
      rcases hf : firstZero w with _ | i <;> rcases hd : dcIndex ws with _ | is <;>
        simp only [dcIndex, hf, hd, Option.isSome_some, Option.isSome_none,
          List.mem_cons, forall_eq_or_imp]
      · constructor
        · intro h; exact absurd h (by simp)
        · rintro ⟨h1, _⟩
          have : (firstZero w).isSome = true := firstZero_isSome_iff.mpr h1
          rw [hf] at this; exact absurd this (by simp)
      · constructor
        · intro h; exact absurd h (by simp)
        · rintro ⟨h1, _⟩
          have : (firstZero w).isSome = true := firstZero_isSome_iff.mpr h1
          rw [hf] at this; exact absurd this (by simp)
      · constructor
        · intro h; exact absurd h (by simp)
        · rintro ⟨_, h2⟩
          have : (dcIndex ws).isSome = true := (ih.mpr h2)
          rw [hd] at this; exact absurd this (by simp)
      · constructor
        · intro _
          refine ⟨firstZero_isSome_iff.mp (by rw [hf]; simp), ?_⟩
          exact ih.mp (by rw [hd]; simp)
        · intro _; simp

/-- C6: when every per-axis frequency array contains a zero, `RemoveDC`
zeroes exactly the single field entry at the zero-mode multi-index and
leaves every other entry unchanged; when some axis has no zero frequency
locally, the whole field is left untouched. -/
theorem claim_C6_removeDC_zero_mode :
    (∀ (ws : List (List ℚ)) (field : List ℕ → ℚ × ℚ),
        (∀ w ∈ ws, (0 : ℚ) ∈ w) →
        ∃ ind, dcIndex ws = some ind ∧
          removeDC ws field ind = (0, 0) ∧
          ∀ idx, idx ≠ ind → removeDC ws field idx = field idx) ∧
    (∀ (ws : List (List ℚ)) (field : List ℕ → ℚ × ℚ) (w : List ℚ),
        w ∈ ws → (0 : ℚ) ∉ w → removeDC ws field = field) := by
  constructor
  · intro ws field hz
    obtain ⟨ind, hind⟩ :=
      Option.isSome_iff_exists.mp ((dcIndex_isSome_iff ws).mpr hz)
    refine ⟨ind, hind, ?_, ?_⟩
    · simp [removeDC, hind]
    · intro idx hne
      simp [removeDC, hind, hne]
  · intro ws field w hw hnz
    rcases hd : dcIndex ws with _ | ind
    · simp [removeDC, hd]
    · exfalso
      exact hnz (((dcIndex_isSome_iff ws).mp (by rw [hd]; simp)) w hw)

/-- Witness for C6: the frequency pair `[[0,1],[1,0]]` owns the zero mode at
multi-index `[0,1]`; a constant field of value `5 + 0i` is zeroed exactly
there; with frequencies `[[1,2],[0,1]]` (no zero on axis 0) the field is
untouched. -/
theorem claim_C6_removeDC_zero_mode_witness :
    (∃ ind, dcIndex [[0, 1], [1, 0]] = some ind ∧
      removeDC [[0, 1], [1, 0]] (fun _ => ((5 : ℚ), (0 : ℚ))) ind = (0, 0) ∧
      ∀ idx, idx ≠ ind →
        removeDC [[0, 1], [1, 0]] (fun _ => ((5 : ℚ), (0 : ℚ))) idx = (5, 0)) ∧
    removeDC [[1, 2], [0, 1]] (fun _ => ((5 : ℚ), (0 : ℚ)))
      = (fun _ => ((5 : ℚ), (0 : ℚ))) :=
  ⟨claim_C6_removeDC_zero_mode.1 [[0, 1], [1, 0]] (fun _ => ((5 : ℚ), (0 : ℚ)))
      (by simp),
    claim_C6_removeDC_zero_mode.2 [[1, 2], [0, 1]] (fun _ => ((5 : ℚ), (0 : ℚ)))
      [1, 2] (by simp) (by simp)⟩

/-- C7: the anisotropic CIC deconvolution is, on every call, an independent
broadcast division by `sqrt(1 - 2/3 sin^2(w/2))` per axis (equivalently a
single division by the product of the per-axis factors); applying it twice
divides by the square of the combined factor, and it is not idempotent:
there are frequencies and a field for which the second application changes
the result again. -/
theorem claim_C7_anisotropic_cic_division :
    (∀ (w0 w1 : ℕ → ℝ) (c : ℕ → ℕ → ℂ) (i j : ℕ),
        anisotropicCIC w0 w1 c i j
          = c i j / (((cicFactor (w0 i) * cicFactor (w1 j) : ℝ)) : ℂ)) ∧
    (∀ (w0 w1 : ℕ → ℝ) (c : ℕ → ℕ → ℂ) (i j : ℕ),
        anisotropicCIC w0 w1 (anisotropicCIC w0 w1 c) i j
          = c i j / ((((cicFactor (w0 i) * cicFactor (w1 j)) ^ 2 : ℝ)) : ℂ)) ∧
    (∃ (w0 w1 : ℕ → ℝ) (c : ℕ → ℕ → ℂ) (i j : ℕ),
        anisotropicCIC w0 w1 (anisotropicCIC w0 w1 c) i j
          ≠ anisotropicCIC w0 w1 c i j) := by
  have hone : ∀ (w0 w1 : ℕ → ℝ) (c : ℕ → ℕ → ℂ) (i j : ℕ),
      anisotropicCIC w0 w1 c i j
        = c i j / (((cicFactor (w0 i) * cicFactor (w1 j) : ℝ)) : ℂ) := by
    intro w0 w1 c i j
    simp [anisotropicCIC, divideAxis0, divideAxis1, div_div, Complex.ofReal_mul]
  refine ⟨hone, ?_, ?_⟩
  · intro w0 w1 c i j
    rw [hone, hone]
    rw [div_div]
    push_cast
    ring_nf
  · refine ⟨fun _ => Real.pi, fun _ => 0, fun _ _ => 1, 0, 0, ?_⟩
    rw [hone, hone]
    have h0 : cicFactor 0 = 1 := by
      simp [cicFactor]
    have hpi : cicFactor Real.pi = Real.sqrt (1 / 3) := by
      rw [cicFactor, Real.sin_pi_div_two]
      norm_num
    rw [h0, hpi]
    have hsq : Real.sqrt (1 / 3) * Real.sqrt (1 / 3) = 1 / 3 :=
      Real.mul_self_sqrt (by norm_num)
    have hspos : (0 : ℝ) < Real.sqrt (1 / 3) := Real.sqrt_pos.mpr (by norm_num)
    have hsne : Real.sqrt (1 / 3) ≠ 0 := ne_of_gt hspos
    intro heq
    rw [mul_one, div_div, ← Complex.ofReal_mul, hsq] at heq
    have h2 : ((1 / 3 : ℝ) : ℂ) = ((Real.sqrt (1 / 3) : ℝ) : ℂ) := by
      have h3 := congrArg (fun z : ℂ => 1 / z) heq
      simpa [one_div_one_div] using h3
    have h13 : (1 / 3 : ℝ) = Real.sqrt (1 / 3) := Complex.ofReal_inj.mp h2
    rw [← h13] at hsq
    norm_num at hsq

/-- C9 counterexample: with two distinct inputs of unequal box size, the
run does raise the mismatch error, but only after input 0 has already been
painted, transformed and filtered — not prior to any computation as the
claim states. -/
theorem claim_C9_counterexample :
    (mainRun mismatchInputs).2.isSome = true ∧
    MainStep.paintStep 0 ∈ (mainRun mismatchInputs).1 ∧
    MainStep.r2cStep 0 ∈ (mainRun mismatchInputs).1 ∧
    MainStep.transferStep 0 ∈ (mainRun mismatchInputs).1 := by
  refine ⟨?_, ?_, ?_, ?_⟩ <;> simp [mainRun, mismatchInputs]

/-- C9 amended: on a box-size mismatch between two distinct cross-power
inputs the orchestrator raises the hard error before the second input is
painted and before any measurement or output is performed — but after the
first input has been painted, transformed and filtered. -/
theorem claim_C9_amended_error_before_second_paint
    (i0 i1 : PowerInput) (rest : List PowerInput)
    (hne : i0 ≠ i1) (hbox : i0.BoxSize ≠ i1.BoxSize) :
    (mainRun (i0 :: i1 :: rest)).2
        = some "mismatch in box sizes for cross power measurement" ∧
    MainStep.paintStep 1 ∉ (mainRun (i0 :: i1 :: rest)).1 ∧
    MainStep.measureStep ∉ (mainRun (i0 :: i1 :: rest)).1 ∧
    MainStep.writeStep ∉ (mainRun (i0 :: i1 :: rest)).1 ∧
    MainStep.paintStep 0 ∈ (mainRun (i0 :: i1 :: rest)).1 ∧
    MainStep.transferStep 0 ∈ (mainRun (i0 :: i1 :: rest)).1 := by
  refine ⟨?_, ?_, ?_, ?_, ?_, ?_⟩ <;> simp [mainRun, hne, hbox]

/-- Witness for C9 amended: the concrete mismatching input pair. -/
theorem claim_C9_amended_error_before_second_paint_witness :
    (mainRun mismatchInputs).2
        = some "mismatch in box sizes for cross power measurement" ∧
    MainStep.paintStep 1 ∉ (mainRun mismatchInputs).1 ∧
    MainStep.measureStep ∉ (mainRun mismatchInputs).1 ∧
    MainStep.writeStep ∉ (mainRun mismatchInputs).1 ∧
    MainStep.paintStep 0 ∈ (mainRun mismatchInputs).1 ∧
    MainStep.transferStep 0 ∈ (mainRun mismatchInputs).1 :=
  claim_C9_amended_error_before_second_paint ⟨0, [0]⟩ ⟨1, [1]⟩ []
    (by simp) (by simp)

/-- C10: every failure inside `__getitem__` surfaces as a `KeyError`
wrapping the underlying message: any error result is a `KeyError`; a
one-element tuple and a three-element tuple are both rejected (as
`KeyError`); and for `force_index_match = False` a float that matches no
k bin center exactly comes back as a `KeyError` too. -/
theorem claim_C10_getitem_wraps_keyerror :
    (∀ (p : PkmuResult) (k : Key) (e : PkErr),
        p.getitem k = Except.error e → ∃ m, e = PkErr.keyError m) ∧
    (∀ p : PkmuResult, ∃ m,
        p.getitem (Key.tup [SubKey.int 0]) = Except.error (PkErr.keyError m)) ∧
    (∀ p : PkmuResult, ∃ m,
        p.getitem (Key.tup [SubKey.int 0, SubKey.int 0, SubKey.int 0])
          = Except.error (PkErr.keyError m)) ∧
    (∀ (p : PkmuResult) (v : ℚ), p.force_index_match = false → v ∉ p.k_center →
        ∃ m, p.getitem (Key.tup [SubKey.val v, SubKey.int 0])
          = Except.error (PkErr.keyError m)) := by
  refine ⟨?_, ?_, ?_, ?_⟩
  · intro p k e h
    unfold PkmuResult.getitem at h
    rcases hi : p.getitemInner k with er | r
    · rw [hi] at h
      refine ⟨"Key not understood in __getitem__: " ++ er.msg, ?_⟩
      have h2 : (Except.error
            (PkErr.keyError ("Key not understood in __getitem__: " ++ er.msg))
          : Except PkErr ResolvedKey) = Except.error e := h
      injection h2 with h3
      exact h3.symm
    · rw [hi] at h
      exact absurd
        (show (Except.ok r : Except PkErr ResolvedKey) = Except.error e from h)
        (by simp)
  · intro p
    exact ⟨_, rfl⟩
  · intro p
    exact ⟨_, rfl⟩
  · intro p v hf hnm
    refine ⟨"Key not understood in __getitem__: " ++
      "error converting index; try setting force_index_match=True", ?_⟩
    unfold PkmuResult.getitem PkmuResult.getitemInner PkmuResult.resolveSub
    unfold PkmuResult.get_index
    simp only [hf, Bool.false_eq_true, if_false]
    rw [show (if (0 : ℕ) = 1 then p.mu_center else p.k_center) = p.k_center by simp]
    rw [findIdx?_eq_none_of_not_mem hnm 0]
    rfl

/-- Witness for C10: the wrapping statement applied at a concrete container
and a concrete failing float lookup. -/
theorem claim_C10_getitem_wraps_keyerror_witness :
    ∃ m, exampleThreeValid.getitem (Key.tup [SubKey.val 0, SubKey.int 0])
      = Except.error (PkErr.keyError m) :=
  claim_C10_getitem_wraps_keyerror.2.2.2 exampleThreeValid 0 rfl
    (by
      simp only [exampleThreeValid, PkmuResult.k_center, binCenters]
      norm_num [List.range_succ, List.getD])

/-- C8: serializing with `to_pickle` and reading back with `from_pickle`
reconstructs an equivalent instance: same edges, flag, column set, metadata,
and a data table pointwise equal to the original, mask included.  (Columns
and metadata keys are unique, as dictionary keys are.) -/
theorem claim_C8_pickle_roundtrip (p : PkmuResult)
    (hc : (p.data.map Prod.fst).Nodup) (hm : (p.meta.map Prod.fst).Nodup) :
    (PkmuResult.from_pickle (PkmuResult.to_pickle p)).kedges = p.kedges ∧
    (PkmuResult.from_pickle (PkmuResult.to_pickle p)).muedges = p.muedges ∧
    (PkmuResult.from_pickle (PkmuResult.to_pickle p)).force_index_match
      = p.force_index_match ∧
    (PkmuResult.from_pickle (PkmuResult.to_pickle p)).columns = p.columns ∧
    (PkmuResult.from_pickle (PkmuResult.to_pickle p)).data = p.data ∧
    (PkmuResult.from_pickle (PkmuResult.to_pickle p)).meta = p.meta ∧
    (∀ name i j, (PkmuResult.from_pickle (PkmuResult.to_pickle p)).col name i j
      = p.col name i j) ∧
    (∀ i j, (PkmuResult.from_pickle (PkmuResult.to_pickle p)).mask i j
      = p.mask i j) := by
  have hdata : (PkmuResult.from_pickle (PkmuResult.to_pickle p)).data = p.data := by
    simp only [PkmuResult.from_pickle, PkmuResult.to_pickle, PkmuResult.columns]
    exact assoc_map_lookup (fun _ _ => none) p.data hc
  have hmeta : (PkmuResult.from_pickle (PkmuResult.to_pickle p)).meta = p.meta := by
    simp only [PkmuResult.from_pickle, PkmuResult.to_pickle]
    exact assoc_map_lookup (0 : ℚ) p.meta hm
  refine ⟨rfl, rfl, rfl, ?_, hdata, hmeta, ?_, ?_⟩
  · simp only [PkmuResult.columns, hdata]
  · intro name i j
    simp only [PkmuResult.col, hdata]
  · intro i j
    simp only [PkmuResult.mask, hdata]

/-- Witness for C8: the round-trip applied to a concrete container with a
masked cell, a set flag and one metadata field. -/
theorem claim_C8_pickle_roundtrip_witness :
    (PkmuResult.from_pickle (PkmuResult.to_pickle exampleWithMeta)).kedges
        = exampleWithMeta.kedges ∧
    (PkmuResult.from_pickle (PkmuResult.to_pickle exampleWithMeta)).muedges
        = exampleWithMeta.muedges ∧
    (PkmuResult.from_pickle (PkmuResult.to_pickle exampleWithMeta)).force_index_match
        = exampleWithMeta.force_index_match ∧
    (PkmuResult.from_pickle (PkmuResult.to_pickle exampleWithMeta)).columns
        = exampleWithMeta.columns ∧
    (PkmuResult.from_pickle (PkmuResult.to_pickle exampleWithMeta)).data
        = exampleWithMeta.data ∧
    (PkmuResult.from_pickle (PkmuResult.to_pickle exampleWithMeta)).meta
        = exampleWithMeta.meta ∧
    (∀ name i j,
      (PkmuResult.from_pickle (PkmuResult.to_pickle exampleWithMeta)).col name i j
        = exampleWithMeta.col name i j) ∧
    (∀ i j, (PkmuResult.from_pickle (PkmuResult.to_pickle exampleWithMeta)).mask i j
        = exampleWithMeta.mask i j) :=
  claim_C8_pickle_roundtrip exampleWithMeta
    (by simp [exampleWithMeta]) (by simp [exampleWithMeta])

theorem get_index_exact {p : PkmuResult} {axis i : ℕ} {v : ℚ}
    (hf : p.force_index_match = false)
    (hpw : List.Pairwise (· ≠ ·) (if axis = 1 then p.mu_center else p.k_center))
    (hget : (if axis = 1 then p.mu_center else p.k_center).get? i = some v) :
    p.get_index axis v = Except.ok i := by
  unfold PkmuResult.get_index
  simp only [hf, Bool.false_eq_true, if_false]
  rw [findIdx?_eq_some_of_get? hpw 0 hget]
  simp

theorem get_index_miss {p : PkmuResult} {axis : ℕ} {v : ℚ}
    (hf : p.force_index_match = false)
    (hnm : v ∉ (if axis = 1 then p.mu_center else p.k_center)) :
    p.get_index axis v = Except.error
      (PkErr.indexError "error converting index; try setting force_index_match=True") := by
  unfold PkmuResult.get_index
  simp only [hf, Bool.false_eq_true, if_false]
  rw [findIdx?_eq_none_of_not_mem hnm 0]

theorem get_index_force {p : PkmuResult} {axis : ℕ} {v : ℚ}
    (hf : p.force_index_match = true) :
    p.get_index axis v
      = Except.ok (argminAbs (if axis = 1 then p.mu_center else p.k_center) v) := by
  unfold PkmuResult.get_index
  simp only [hf, if_true]

/-- C3: with `force_index_match = False`, `Pk` / `Pmu` / `__getitem__` on a
float exactly equal to a bin center return the same slice as the bin's
integer position, and a float matching no center raises a lookup failure
(`IndexError` from `Pk`/`Pmu`, wrapped into `KeyError` by `__getitem__`);
with `force_index_match = True`, a float always resolves, to the bin whose
center is nearest by absolute difference.  Edge lists are strictly
increasing, per the data-model invariant. -/
theorem claim_C3_value_indexing :
    (∀ p : PkmuResult, p.force_index_match = false →
      List.Pairwise (· < ·) p.kedges → List.Pairwise (· < ·) p.muedges →
      (∀ i v, p.mu_center.get? i = some v →
          p.Pk (IntOrVal.val v) = p.Pk (IntOrVal.int i)) ∧
      (∀ i v, p.k_center.get? i = some v →
          p.Pmu (IntOrVal.val v) = p.Pmu (IntOrVal.int i) ∧
          ∀ sk, p.getitem (Key.tup [SubKey.val v, sk])
            = p.getitem (Key.tup [SubKey.int i, sk])) ∧
      (∀ v, v ∉ p.mu_center → ∃ m,
          p.Pk (IntOrVal.val v) = Except.error (PkErr.indexError m)) ∧
      (∀ v, v ∉ p.k_center →
          (∃ m, p.Pmu (IntOrVal.val v) = Except.error (PkErr.indexError m)) ∧
          ∀ sk, ∃ m, p.getitem (Key.tup [SubKey.val v, sk])
            = Except.error (PkErr.keyError m))) ∧
    (∀ p : PkmuResult, p.force_index_match = true → ∀ v,
      (p.Pk (IntOrVal.val v) = p.Pk (IntOrVal.int (argminAbs p.mu_center v)) ∧
        ∀ j < p.mu_center.length,
          |p.mu_center.getD (argminAbs p.mu_center v) 0 - v|
            ≤ |p.mu_center.getD j 0 - v|) ∧
      (p.Pmu (IntOrVal.val v) = p.Pmu (IntOrVal.int (argminAbs p.k_center v)) ∧
        ∀ j < p.k_center.length,
          |p.k_center.getD (argminAbs p.k_center v) 0 - v|
            ≤ |p.k_center.getD j 0 - v|)) := by
  constructor
  · intro p hf hke hme
    have hkc : List.Pairwise (· ≠ ·) p.k_center :=
      (binCenters_pairwise_lt hke).imp (fun h => ne_of_lt h)
    have hmc : List.Pairwise (· ≠ ·) p.mu_center :=
      (binCenters_pairwise_lt hme).imp (fun h => ne_of_lt h)
    have hax1 : (if (1 : ℕ) = 1 then p.mu_center else p.k_center) = p.mu_center := by
      simp
    have hax0 : (if (0 : ℕ) = 1 then p.mu_center else p.k_center) = p.k_center := by
      simp
    refine ⟨?_, ?_, ?_, ?_⟩
    · intro i v hget
      have h1 : p.get_index 1 v = Except.ok i :=
        get_index_exact hf (by rw [hax1]; exact hmc) (by rw [hax1]; exact hget)
      simp only [PkmuResult.Pk, h1, bind, Except.bind]
    · intro i v hget
      have h0 : p.get_index 0 v = Except.ok i :=
        get_index_exact hf (by rw [hax0]; exact hkc) (by rw [hax0]; exact hget)
      constructor
      · simp only [PkmuResult.Pmu, h0, bind, Except.bind]
      · intro sk
        simp only [PkmuResult.getitem, PkmuResult.getitemInner,
          PkmuResult.resolveSub, h0, bind, Except.bind]
    · intro v hnm
      have h1 : p.get_index 1 v = Except.error
          (PkErr.indexError "error converting index; try setting force_index_match=True") :=
        get_index_miss hf (by rw [hax1]; exact hnm)
      exact ⟨"error converting index; try setting force_index_match=True",
        by simp only [PkmuResult.Pk, h1, bind, Except.bind]⟩
    · intro v hnm
      have h0 : p.get_index 0 v = Except.error
          (PkErr.indexError "error converting index; try setting force_index_match=True") :=
        get_index_miss hf (by rw [hax0]; exact hnm)
      constructor
      · exact ⟨"error converting index; try setting force_index_match=True",
          by simp only [PkmuResult.Pmu, h0, bind, Except.bind]⟩
      · intro sk
        have hres : p.resolveSub 0 (SubKey.val v) = Except.error
            (PkErr.indexError "error converting index; try setting force_index_match=True") := by
          simp only [PkmuResult.resolveSub, h0, bind, Except.bind]
        refine ⟨"Key not understood in __getitem__: " ++
          "error converting index; try setting force_index_match=True", ?_⟩
        simp only [PkmuResult.getitem, PkmuResult.getitemInner, hres]
        rfl
  · intro p hf v
    have hax1 : (if (1 : ℕ) = 1 then p.mu_center else p.k_center) = p.mu_center := by
      simp
    have hax0 : (if (0 : ℕ) = 1 then p.mu_center else p.k_center) = p.k_center := by
      simp
    have h1 : p.get_index 1 v = Except.ok (argminAbs p.mu_center v) := by
      rw [get_index_force hf, hax1]
    have h0 : p.get_index 0 v = Except.ok (argminAbs p.k_center v) := by
      rw [get_index_force hf, hax0]
    refine ⟨⟨?_, argminAbs_nearest p.mu_center v⟩, ⟨?_, argminAbs_nearest p.k_center v⟩⟩
    · simp only [PkmuResult.Pk, h1, bind, Except.bind]
    · simp only [PkmuResult.Pmu, h0, bind, Except.bind]

/-- Witness for C3: on the concrete container, the float `1/4` (the center
of mu bin 0) selects the same slice as integer 0, the float `1/5` raises,
and with the flag on it resolves to the nearest bin. -/
theorem claim_C3_value_indexing_witness :
    exampleKIndex.Pk (IntOrVal.val (1/4)) = exampleKIndex.Pk (IntOrVal.int 0) ∧
    (∃ m, exampleKIndex.Pk (IntOrVal.val (1/5))
      = Except.error (PkErr.indexError m)) ∧
    exampleForce.Pk (IntOrVal.val (1/5))
      = exampleForce.Pk (IntOrVal.int (argminAbs exampleForce.mu_center (1/5))) := by
  have h := claim_C3_value_indexing.1 exampleKIndex rfl
    (by norm_num [exampleKIndex, List.pairwise_cons])
    (by norm_num [exampleKIndex, List.pairwise_cons])
  refine ⟨?_, ?_, ?_⟩
  · exact h.1 0 (1/4)
      (by norm_num [exampleKIndex, PkmuResult.mu_center, binCenters,
        List.range_succ, List.getD])
  · exact h.2.2.1 (1/5)
      (by norm_num [exampleKIndex, PkmuResult.mu_center, binCenters,
        List.range_succ, List.getD])
  · exact ((claim_C3_value_indexing.2 exampleForce rfl (1/5)).1).1

end Nbodykit
